import Mathlib

/-!
Verification of the codemapper code-map generator (src/codemapper.py).

The development shallowly embeds the file-selection and inclusion engine of
the tool: the decision functions `should_process_folder` (codemapper.py
lines 77-107), `should_process_file` (lines 109-134), `is_text_file`
(lines 136-139), `read_file_safely` (lines 141-155), and the `os.walk`
driven emission loop of `generate_map` (lines 197-236).

Modelling conventions:
- A relative path is a list of path segments (`List String`); the
  repository root is `[]`, whose `str(Path(...))` rendering is `"."` with
  an empty `parts` tuple, exactly as in `pathlib`.
- `normalize_path` models `str(Path(s)).replace('\x5c\x5c', '/')` for
  POSIX-style relative path strings: splitting on `/`, dropping empty and
  `"."` segments, re-joining with `/` (empty input renders as `"."`), and
  finally mapping backslashes to forward slashes.
- File contents are abstracted by `FileContent`, which records the outcome
  of the layered `open`/`read` attempts of `read_file_safely`: a string
  successfully decoded as UTF-8, a string obtained from the Latin-1 retry
  after a `UnicodeDecodeError`, or a read failure (either on the first
  attempt or during the Latin-1 retry) carrying the exception message.
- `os.stat` results are `Option Nat` (`none` models a raised `OSError`,
  which the code swallows).
- The directory tree handed to `os.walk` is the `Dir`/`DirList` mutual
  inductive; sibling directories appear in the order the operating system
  lists them, and files are sorted by name (`sorted(files)`) before being
  processed, as in `generate_map` line 204.
All definitions are executable and structurally recursive so that concrete
runs evaluate by `decide`.
-/

/-- Character-list test: `pat` is a leading run of `s` (models `str.startswith`). -/
def startsWithL : List Char → List Char → Bool
  | [], _ => true
  | _ :: _, [] => false
  | p :: ps, c :: cs => p == c && startsWithL ps cs

/-- `strStarts pat s` models Python `s.startswith(pat)`. -/
def strStarts (pat s : String) : Bool :=
  startsWithL pat.data s.data

/-- `strEndsWith s pat` models Python `s.endswith(pat)`. -/
def strEndsWith (s pat : String) : Bool :=
  startsWithL pat.data.reverse s.data.reverse

/-- Character-list substring occurrence test. -/
def containsL : List Char → List Char → Bool
  | pat, [] => startsWithL pat []
  | pat, c :: cs => startsWithL pat (c :: cs) || containsL pat cs

/-- `strContains s pat` models Python `pat in s` (substring containment). -/
def strContains (s pat : String) : Bool :=
  containsL pat.data s.data

/-- Split a character list on `/` separators. -/
def splitSlash : List Char → List (List Char)
  | [] => [[]]
  | c :: cs =>
    if c = '/' then [] :: splitSlash cs
    else
      match splitSlash cs with
      | [] => [[c]]
      | seg :: rest => (c :: seg) :: rest

/-- Replace every backslash with a forward slash (models `.replace('\x5c\x5c', '/')`). -/
def slashify (s : String) : String :=
  String.mk (s.data.map fun c => if c = '\\' then '/' else c)

/-- Join strings with `/` separators. -/
def joinSlash : List String → String
  | [] => ""
  | [s] => s
  | s :: rest => s ++ "/" ++ joinSlash rest

/-- `normalize_path` (codemapper.py lines 73-75): `str(Path(path_str)).replace('\x5c\x5c', '/')`
for a POSIX-style relative path string. `Path` drops empty and `"."` segments and renders
the empty path as `"."`. -/
def normalize_path (s : String) : String :=
  let segs := ((splitSlash s.data).map String.mk).filter fun t => !(t == "" || t == ".")
  slashify (if segs.isEmpty then "." else joinSlash segs)

/-- The string rendering of a relative path given as segments:
`str(rel_path)` for the root path `.` is `"."`, otherwise the `/`-joined segments,
with backslashes inside segments then normalized to `/` by `normalize_path`. -/
def relStr (p : List String) : String :=
  if p.isEmpty then "." else slashify (joinSlash p)

/-- Lowercase a string character-wise (models `str.lower` on extension strings). -/
def strToLower (s : String) : String :=
  String.mk (s.data.map Char.toLower)

/-- Index of the last `'.'` in a character list, if any (for `Path.suffix`). -/
def lastDotAux : List Char → Option Nat
  | [] => none
  | c :: cs =>
    match lastDotAux cs with
    | some i => some (i + 1)
    | none => if c = '.' then some 0 else none

/-- `Path(name).suffix` of a final path component: the substring from the last dot,
provided that dot is neither the first nor the last character; otherwise `""`. -/
def pySuffix (name : String) : String :=
  match lastDotAux name.data with
  | none => ""
  | some i =>
    if 0 < i && i + 1 < name.data.length then String.mk (name.data.drop i) else ""

/-- `DEFAULT_TEXT_EXTENSIONS` (codemapper.py lines 26-32). -/
def DEFAULT_TEXT_EXTENSIONS : List String :=
  [".php", ".py", ".js", ".jsx", ".ts", ".tsx", ".html", ".css", ".scss",
   ".json", ".xml", ".yml", ".yaml", ".md", ".txt", ".sql", ".sh", ".bash",
   ".java", ".c", ".cpp", ".h", ".hpp", ".cs", ".go", ".rs", ".rb", ".vue",
   ".svelte", ".astro", ".env", ".gitignore", ".htaccess", ".conf", ".ini",
   ".sass", ".less", ".lock", ".toml", ".dockerfile", ".editorconfig"]

/-- `COMMON_SKIP_FOLDERS` (codemapper.py lines 35-40). -/
def COMMON_SKIP_FOLDERS : List String :=
  ["node_modules", ".git", ".svn", "__pycache__", "vendor",
   ".idea", ".vscode", "dist", "build", ".next", ".cache",
   "coverage", ".pytest_cache", ".mypy_cache", "venv", "env",
   "codemapper"]

/-- The tool's own script/executable name (codemapper.py lines 53-54):
`codemapper.exe` when frozen, `codemapper.py` otherwise. -/
def scriptName (is_frozen : Bool) : String :=
  if is_frozen then "codemapper.exe" else "codemapper.py"

/-- The raw configuration dictionary handed to `CodeMapGenerator.__init__`,
with the defaults of lines 45-57: sets are modelled as lists whose only
observable is membership. -/
structure Config where
  text_extensions : List String := DEFAULT_TEXT_EXTENSIONS
  folders : List String := []
  files : List String := []
  except_folders : List String := []
  except_files : List String := []
  max_file_size_mb : Nat := 10
  is_frozen : Bool := false
deriving Repr

/-- The resolved state of a `CodeMapGenerator` after `__init__`. -/
structure Generator where
  text_extensions : List String
  folders : List String
  files : List String
  except_folders : List String
  except_files : List String
  max_file_size : Nat
deriving Repr

/-- `CodeMapGenerator.__init__` (codemapper.py lines 43-57): copies the
configuration, unconditionally adds the script/executable name to
`except_files`, and converts `max_file_size_mb` to bytes. -/
def mkGenerator (c : Config) : Generator :=
  { text_extensions := c.text_extensions
    folders := c.folders
    files := c.files
    except_folders := c.except_folders
    except_files := scriptName c.is_frozen :: c.except_files
    max_file_size := c.max_file_size_mb * 1024 * 1024 }

/-- Line 85: `"codemapper" in parts or "codemapper/" in rel_str`. -/
def codemapperHit (p : List String) : Bool :=
  p.contains "codemapper" || strContains (relStr p) "codemapper/"

/-- Line 89: some `except_folders` entry is a string prefix of the relative path. -/
def exclCovers (g : Generator) (p : List String) : Bool :=
  g.except_folders.any fun f => strStarts (normalize_path f) (relStr p)

/-- Line 96: some `folders` entry is a string prefix of the relative path. -/
def inclCovers (g : Generator) (p : List String) : Bool :=
  g.folders.any fun f => strStarts (normalize_path f) (relStr p)

/-- Lines 100-105: the `folders` allow-list test used outside the built-in-skip branch. -/
def inclSelects (g : Generator) (p : List String) : Bool :=
  g.folders.any fun f =>
    strStarts (normalize_path f) (relStr p) ||
    relStr p == normalize_path f ||
    g.folders.contains ((p.getLast?).getD "")

/-- Line 93: some path segment is one of the built-in skip names. -/
def hasSkipSeg (p : List String) : Bool :=
  COMMON_SKIP_FOLDERS.any fun skip => p.contains skip

/-- `CodeMapGenerator.should_process_folder` (codemapper.py lines 77-107),
applied to the path of the folder relative to the source root. -/
def should_process_folder (g : Generator) (p : List String) : Bool :=
  if codemapperHit p then false
  else if exclCovers g p then false
  else if hasSkipSeg p then
    if g.folders.isEmpty then false else inclCovers g p
  else if !g.folders.isEmpty then inclSelects g p
  else true

/-- Line 116: `"codemapper/" in rel_str or "codemapper\x5c\x5c" in str(rel_path)`. -/
def fileCodemapperHit (p : List String) : Bool :=
  strContains (relStr p) "codemapper/" || strContains (joinSlash p) "codemapper\\"

/-- Line 120: the filename or the relative path is in `except_files`. -/
def exceptFileHit (g : Generator) (p : List String) : Bool :=
  g.except_files.contains ((p.getLast?).getD "") || g.except_files.contains (relStr p)

/-- Line 125: the filename or the relative path is in `files`. -/
def inclFileHit (g : Generator) (p : List String) : Bool :=
  g.files.contains ((p.getLast?).getD "") || g.files.contains (relStr p)

/-- `CodeMapGenerator.should_process_file` (codemapper.py lines 109-134),
applied to the file's relative path and its `os.stat` size (`none` models a
raised `OSError`, which line 131-132 swallows, letting the file through). -/
def should_process_file (g : Generator) (p : List String) (statSize : Option Nat) : Bool :=
  if fileCodemapperHit p then false
  else if exceptFileHit g p then false
  else if !g.files.isEmpty then inclFileHit g p
  else
    match statSize with
    | some sz => !(g.max_file_size < sz)
    | none => true

/-- `CodeMapGenerator.is_text_file` (codemapper.py lines 136-139):
the lowercased `Path.suffix` of the filename is in `text_extensions`. -/
def is_text_file (g : Generator) (filename : String) : Bool :=
  g.text_extensions.contains (strToLower (pySuffix filename))

/-- Abstraction of a file's on-disk contents by the outcome of
`read_file_safely`'s layered attempts (codemapper.py lines 141-155):
`utf8 s`   - `open(..., encoding='utf-8').read()` succeeds with `s`;
`latin1 s` - UTF-8 decoding raises `UnicodeDecodeError`, the Latin-1 retry
             returns `s` (Latin-1 decodes arbitrary bytes);
`unreadable msg`       - the first open/read raises a non-decode error `msg`;
`latin1Unreadable msg` - UTF-8 raises `UnicodeDecodeError` and the Latin-1
             retry itself raises a read error `msg`. -/
inductive FileContent where
  | utf8 (s : String)
  | latin1 (s : String)
  | unreadable (msg : String)
  | latin1Unreadable (msg : String)
deriving DecidableEq, Repr

/-- `CodeMapGenerator.read_file_safely` (codemapper.py lines 141-155):
returns the string used in place of the file's content together with the
increment applied to `self.stats['errors']`. Every outcome returns; no
exception escapes. -/
def read_file_safely : FileContent → String × Nat
  | .utf8 s => (s, 0)
  | .latin1 s => (s, 0)
  | .unreadable m => ("[Error: " ++ m ++ "]", 1)
  | .latin1Unreadable m => ("[Error: " ++ m ++ "]", 1)

/-- A directory entry of type file: its name, content outcome, and
`os.stat().st_size` outcome (`none` = stat raises). -/
structure FileEntry where
  name : String
  content : FileContent
  statSize : Option Nat
deriving DecidableEq, Repr

mutual
/-- A directory of the scanned tree: subdirectories in OS listing order, files unsorted. -/
inductive Dir where
  | node (entries : DirList) (files : List FileEntry) : Dir
/-- Named subdirectories in the order `os.walk` lists them. -/
inductive DirList where
  | nil : DirList
  | cons (name : String) (d : Dir) (rest : DirList) : DirList
end

/-- The running statistics dictionary (codemapper.py lines 65-71). -/
structure Stats where
  text_files : Nat := 0
  binary_files : Nat := 0
  skipped_files : Nat := 0
  errors : Nat := 0
  total_size : Nat := 0
deriving DecidableEq, Repr

/-- Componentwise accumulation of statistics. -/
def Stats.add (a b : Stats) : Stats :=
  { text_files := a.text_files + b.text_files
    binary_files := a.binary_files + b.binary_files
    skipped_files := a.skipped_files + b.skipped_files
    errors := a.errors + b.errors
    total_size := a.total_size + b.total_size }

/-- The all-zero statistics. -/
def Stats.zero : Stats := {}

/-- `text_files + binary_files + skipped_files`, the counters of the final summary line. -/
def statsTotal (s : Stats) : Nat :=
  s.text_files + s.binary_files + s.skipped_files

/-- An output record of the emission loop: a text record carries the
content block written between the `--path` and `----` marker lines
(lines 221-226), a binary record is the path marker alone (line 230).
Paths are stored as segment lists relative to the source root. -/
inductive Record where
  | text (relPath : List String) (content : String) : Record
  | binary (relPath : List String) : Record
deriving DecidableEq, Repr

/-- The root-relative path of a record. -/
def Record.relPath : Record → List String
  | .text p _ => p
  | .binary p => p

/-- Lines 223-225: the content is written, then a newline is added only if
the content does not already end with one. -/
def ensureNewline (s : String) : String :=
  if strEndsWith s "\n" then s else s ++ "\n"

/-- Lexicographic order on character lists by code point, as Python compares strings. -/
def charListLt : List Char → List Char → Bool
  | [], [] => false
  | [], _ :: _ => true
  | _ :: _, [] => false
  | a :: as, b :: bs => if a < b then true else if b < a then false else charListLt as bs

/-- `a` sorts no later than `b` under Python's string order. -/
def nameLe (a b : String) : Bool :=
  charListLt a.data b.data || a == b

/-- Insert a file into a name-sorted list. -/
def insertSorted (f : FileEntry) : List FileEntry → List FileEntry
  | [] => [f]
  | g :: gs => if nameLe f.name g.name then f :: g :: gs else g :: insertSorted f gs

/-- `sorted(files)` of line 204: sort the directory's files by name. -/
def sortFiles (fs : List FileEntry) : List FileEntry :=
  fs.foldr insertSorted []

/-- The body of the file loop (codemapper.py lines 204-232) for one file in
the directory `rd` (relative to the source root): skip (counting it), or
emit a text record with content and a trailing-newline guarantee, or emit a
binary marker record; returns the emitted records and the statistics delta. -/
def processFile (g : Generator) (rd : List String) (f : FileEntry) : List Record × Stats :=
  let fileRel := rd ++ [f.name]
  if should_process_file g fileRel f.statSize then
    let size := f.statSize.getD 0
    if is_text_file g f.name then
      let rs := read_file_safely f.content
      ([Record.text fileRel (ensureNewline rs.1)],
       { text_files := 1, binary_files := 0, skipped_files := 0,
         errors := rs.2, total_size := size })
    else
      ([Record.binary fileRel],
       { text_files := 0, binary_files := 1, skipped_files := 0,
         errors := 0, total_size := size })
  else
    ([], { text_files := 0, binary_files := 0, skipped_files := 1,
           errors := 0, total_size := 0 })

/-- The file loop over a directory's (already sorted) file list. -/
def processFiles (g : Generator) (rd : List String) : List FileEntry → List Record × Stats
  | [] => ([], Stats.zero)
  | f :: fs =>
    let r := processFile g rd f
    let rest := processFiles g rd fs
    (r.1 ++ rest.1, Stats.add r.2 rest.2)

mutual
/-- The `os.walk` loop of `generate_map` (codemapper.py lines 197-232) at a
visited directory with root-relative path `rel`: the directory's own files
are processed only if `should_process_folder` holds for it (line 200's
`continue`), while subdirectories are filtered by the same predicate
(line 198's in-place pruning of `dirs`) and then visited top-down. -/
def walkDir (g : Generator) (rel : List String) : Dir → List Record × Stats
  | .node entries files =>
    let here :=
      if should_process_folder g rel then processFiles g rel (sortFiles files)
      else ([], Stats.zero)
    let below := walkDirs g rel entries
    (here.1 ++ below.1, Stats.add here.2 below.2)
/-- Visit the pruned-filtered subdirectories of a directory in listing order. -/
def walkDirs (g : Generator) (rel : List String) : DirList → List Record × Stats
  | .nil => ([], Stats.zero)
  | .cons name d rest =>
    let r :=
      if should_process_folder g (rel ++ [name]) then walkDir g (rel ++ [name]) d
      else ([], Stats.zero)
    let rest2 := walkDirs g rel rest
    (r.1 ++ rest2.1, Stats.add r.2 rest2.2)
end

/-- `CodeMapGenerator.generate_map` restricted to one source root: the
ordered record stream and the final statistics for the walk of `t`. -/
def generate_map (g : Generator) (t : Dir) : List Record × Stats :=
  walkDir g [] t

/-- The final summary line (codemapper.py line 236). -/
def summaryLine (st : Stats) : String :=
  "Text:" ++ Nat.repr st.text_files ++ " Binary:" ++ Nat.repr st.binary_files ++
  " Skipped:" ++ Nat.repr st.skipped_files

/-- The generator arising from the default configuration (no CLI overrides). -/
def gDefault : Generator := mkGenerator {}

/-- The example tree of the specification: `a.txt` containing `"hello"`,
binary `b.png`, and `node_modules/x.js`; `b.png` is listed before `a.txt`
to exercise the per-directory sort. -/
def exampleTree : Dir :=
  Dir.node
    (DirList.cons "node_modules"
      (Dir.node DirList.nil [⟨"x.js", FileContent.utf8 "alert(1)", some 8⟩])
      DirList.nil)
    [⟨"b.png", FileContent.unreadable "binary junk", some 3⟩,
     ⟨"a.txt", FileContent.utf8 "hello", some 5⟩]

mutual
/-- All files of a tree, each paired with its path relative to the tree's root. -/
def allFilesDir : Dir → List (List String × FileEntry)
  | .node entries files =>
    files.map (fun f => ([f.name], f)) ++ allFilesEntries entries
/-- All files of a forest of named subtrees, paths relative to the common parent. -/
def allFilesEntries : DirList → List (List String × FileEntry)
  | .nil => []
  | .cons name d rest =>
    (allFilesDir d).map (fun x => (name :: x.1, x.2)) ++ allFilesEntries rest
end

/-- The chain of folder decisions that guards a file of the walk: for a file
whose path relative to the visited directory `acc` is `q` (ending in the
filename), every directory from `acc` down to the file's parent must pass
`should_process_folder` — the subdirectory filter of line 198 at each
descent, and the check of line 200 on the parent itself. -/
def dirChainOK (g : Generator) : List String → List String → Bool
  | _, [] => false
  | acc, [_] => should_process_folder g acc
  | acc, seg :: s2 :: rest =>
    should_process_folder g (acc ++ [seg]) && dirChainOK g (acc ++ [seg]) (s2 :: rest)

/-- Two lists agree as sets: same members. Python's `set` iteration order is
unspecified, so the run-to-run stable observable of a set is exactly its
membership. -/
def memEquiv (a b : List String) : Prop := ∀ x, x ∈ a ↔ x ∈ b

/-- Two generator states that carry the same list-valued fields and
set-equal set-valued fields (the observable state of a `CodeMapGenerator`
across runs, where Python set iteration order may differ). -/
structure GenEquiv (g g2 : Generator) : Prop where
  folders : g.folders = g2.folders
  files : g.files = g2.files
  max : g.max_file_size = g2.max_file_size
  excf : memEquiv g.except_folders g2.except_folders
  excfi : memEquiv g.except_files g2.except_files
  exts : memEquiv g.text_extensions g2.text_extensions

/-- A generator whose `folders` allow-list and `except_folders` deny-list
both name `node_modules`. -/
def gIncExc : Generator :=
  mkGenerator { folders := ["node_modules"], except_folders := ["node_modules"] }

/-- A generator whose `folders` allow-list names `node_modules` and whose
deny-lists are empty. -/
def gInc : Generator := mkGenerator { folders := ["node_modules"] }

/-- A tree whose only file lives under a built-in-skip directory. -/
def cexTree : Dir :=
  Dir.node
    (DirList.cons "node_modules"
      (Dir.node DirList.nil [⟨"x.js", FileContent.utf8 "alert(1)", some 8⟩])
      DirList.nil)
    []

/-- A tree whose only file is a text file whose content ends in two newlines. -/
def nlTree : Dir :=
  Dir.node DirList.nil [⟨"a.txt", FileContent.utf8 "x\n\n", some 3⟩]

/-- A tree whose only file is a text file whose content lacks a trailing newline. -/
def hiTree : Dir :=
  Dir.node DirList.nil [⟨"a.txt", FileContent.utf8 "hi", some 2⟩]

/-- `s` ends with exactly one newline: it ends with a newline but not with two. -/
def endsWithOneNewline (s : String) : Bool :=
  strEndsWith s "\n" && !(strEndsWith s "\n\n")

/-- A configuration with set-valued fields listed in one order. -/
def gA : Generator :=
  mkGenerator { except_folders := ["vendor", "dist"],
                except_files := ["secret.txt", "a.bin"],
                text_extensions := [".txt", ".py"] }

/-- The same configuration with its set-valued fields listed in another order,
as a different Python set iteration order would present them. -/
def gB : Generator :=
  mkGenerator { except_folders := ["dist", "vendor"],
                except_files := ["a.bin", "secret.txt"],
                text_extensions := [".py", ".txt"] }

/-- A small mixed tree for exercising one full walk. -/
def wTree : Dir :=
  Dir.node
    (DirList.cons "src"
      (Dir.node DirList.nil [⟨"m.py", FileContent.utf8 "pass", some 4⟩])
      DirList.nil)
    [⟨"secret.txt", FileContent.utf8 "k", some 1⟩,
     ⟨"r.txt", FileContent.utf8 "r", some 1⟩]

/-- Everything about a record emitted by `processFile`: the file passed the
file decision, and the record is the text record with newline-ensured
content (text classification) or the bare binary marker. -/
theorem processFile_mem {g : Generator} {rd : List String} {f : FileEntry} {rec : Record}
    (h : rec ∈ (processFile g rd f).1) :
    should_process_file g (rd ++ [f.name]) f.statSize = true ∧
    ((rec = Record.text (rd ++ [f.name]) (ensureNewline (read_file_safely f.content).1) ∧
        is_text_file g f.name = true) ∨
      (rec = Record.binary (rd ++ [f.name]) ∧ is_text_file g f.name = false)) := by
  by_cases hs : should_process_file g (rd ++ [f.name]) f.statSize = true
  · by_cases ht : is_text_file g f.name = true
    · refine ⟨hs, Or.inl ⟨?_, ht⟩⟩
      simp only [processFile, hs, ht, if_true] at h
      simpa using h
    · refine ⟨hs, Or.inr ⟨?_, by simpa using ht⟩⟩
      simp only [processFile, hs, if_true] at h
      rw [if_neg ht] at h
      simpa using h
  · exfalso
    simp only [processFile] at h
    rw [if_neg hs] at h
    simp at h

/-- A record of the file loop comes from one file of the processed list. -/
theorem processFiles_mem {g : Generator} {rd : List String} {fs : List FileEntry} {rec : Record}
    (h : rec ∈ (processFiles g rd fs).1) : ∃ f ∈ fs, rec ∈ (processFile g rd f).1 := by
  induction fs with
  | nil => simp [processFiles] at h
  | cons f fs ih =>
    simp only [processFiles, List.mem_append] at h
    rcases h with h | h
    · exact ⟨f, List.mem_cons_self .., h⟩
    · obtain ⟨f2, hf2, hr⟩ := ih h
      exact ⟨f2, List.mem_cons_of_mem _ hf2, hr⟩

/-- Membership through sorted insertion. -/
theorem insertSorted_mem {f x : FileEntry} {l : List FileEntry} :
    x ∈ insertSorted f l ↔ x = f ∨ x ∈ l := by
  induction l with
  | nil => simp [insertSorted]
  | cons g gs ih =>
    simp only [insertSorted]
    split
    · simp
    · simp only [List.mem_cons, ih]
      tauto

/-- Sorting the file list preserves membership. -/
theorem sortFiles_mem {x : FileEntry} {fs : List FileEntry} (h : x ∈ sortFiles fs) : x ∈ fs := by
  induction fs with
  | nil => simp [sortFiles] at h
  | cons f fs ih =>
    simp only [sortFiles, List.foldr] at h
    rcases insertSorted_mem.mp h with h | h
    · simp [h]
    · exact List.mem_cons_of_mem _ (ih h)

/-- Sorted insertion adds one element. -/
theorem insertSorted_length (f : FileEntry) (l : List FileEntry) :
    (insertSorted f l).length = l.length + 1 := by
  induction l with
  | nil => rfl
  | cons g gs ih =>
    simp only [insertSorted]
    split
    · rfl
    · simp [ih]

/-- Sorting the file list preserves its length. -/
theorem sortFiles_length (fs : List FileEntry) : (sortFiles fs).length = fs.length := by
  induction fs with
  | nil => rfl
  | cons f fs ih =>
    simp only [sortFiles] at ih ⊢
    simp [List.foldr, insertSorted_length, ih]

mutual
/-- Every collected file path is its directory part followed by the file's name. -/
theorem allFilesDir_shape : (d : Dir) → ∀ x : List String × FileEntry,
    x ∈ allFilesDir d → ∃ pre, x.1 = pre ++ [x.2.name]
  | .node entries files => by
    intro x hx
    simp only [allFilesDir, List.mem_append, List.mem_map] at hx
    rcases hx with ⟨f, _, rfl⟩ | hx
    · exact ⟨[], rfl⟩
    · exact allFilesEntries_shape entries x hx
/-- Every collected file path in a forest is its directory part followed by the name. -/
theorem allFilesEntries_shape : (es : DirList) → ∀ x : List String × FileEntry,
    x ∈ allFilesEntries es → ∃ pre, x.1 = pre ++ [x.2.name]
  | .nil => by intro x hx; simp [allFilesEntries] at hx
  | .cons name d rest => by
    intro x hx
    simp only [allFilesEntries, List.mem_append, List.mem_map] at hx
    rcases hx with ⟨y, hy, rfl⟩ | hx
    · obtain ⟨pre, hpre⟩ := allFilesDir_shape d y hy
      exact ⟨name :: pre, by simp [hpre]⟩
    · exact allFilesEntries_shape rest x hx
end

mutual
/-- Soundness of the walk: every emitted record arises from a file of the
tree whose whole guarding folder chain passed, via `processFile` at the
file's parent directory. -/
theorem walkDir_mem (g : Generator) : (d : Dir) → ∀ (rel : List String) (rec : Record),
    rec ∈ (walkDir g rel d).1 →
    ∃ q f, (q, f) ∈ allFilesDir d ∧ dirChainOK g rel q = true ∧
      rec ∈ (processFile g (rel ++ q.dropLast) f).1
  | .node entries files => by
    intro rel rec h
    simp only [walkDir, List.mem_append] at h
    rcases h with h | h
    · by_cases hs : should_process_folder g rel = true
      · rw [if_pos hs] at h
        obtain ⟨f, hf, hr⟩ := processFiles_mem h
        refine ⟨[f.name], f, ?_, ?_, ?_⟩
        · simp only [allFilesDir, List.mem_append, List.mem_map]
          exact Or.inl ⟨f, sortFiles_mem hf, rfl⟩
        · simpa [dirChainOK] using hs
        · simpa using hr
      · rw [if_neg hs] at h
        simp at h
    · obtain ⟨q, f, hin, hchain, hproc⟩ := walkDirs_mem g entries rel rec h
      refine ⟨q, f, ?_, hchain, hproc⟩
      simp only [allFilesDir, List.mem_append]
      exact Or.inr hin
/-- Soundness of the walk over a forest of subdirectories. -/
theorem walkDirs_mem (g : Generator) : (es : DirList) → ∀ (rel : List String) (rec : Record),
    rec ∈ (walkDirs g rel es).1 →
    ∃ q f, (q, f) ∈ allFilesEntries es ∧ dirChainOK g rel q = true ∧
      rec ∈ (processFile g (rel ++ q.dropLast) f).1
  | .nil => by intro rel rec h; simp [walkDirs] at h
  | .cons name d rest => by
    intro rel rec h
    simp only [walkDirs, List.mem_append] at h
    rcases h with h | h
    · by_cases hs : should_process_folder g (rel ++ [name]) = true
      · rw [if_pos hs] at h
        obtain ⟨q, f, hin, hchain, hproc⟩ := walkDir_mem g d (rel ++ [name]) rec h
        obtain ⟨pre, hpre⟩ := allFilesDir_shape d (q, f) hin
        cases q with
        | nil => simp at hpre
        | cons q1 qrest =>
          refine ⟨name :: q1 :: qrest, f, ?_, ?_, ?_⟩
          · simp only [allFilesEntries, List.mem_append, List.mem_map]
            exact Or.inl ⟨(q1 :: qrest, f), hin, rfl⟩
          · simp [dirChainOK, hs, hchain]
          · simpa [List.append_assoc, List.dropLast] using hproc
      · rw [if_neg hs] at h
        simp at h
    · obtain ⟨q, f, hin, hchain, hproc⟩ := walkDirs_mem g rest rel rec h
      refine ⟨q, f, ?_, hchain, hproc⟩
      simp only [allFilesEntries, List.mem_append]
      exact Or.inr hin
end

/-- Every directory strictly between the visited directory and the file's
parent (inclusive) along a passing chain satisfies `should_process_folder`. -/
theorem dirChainOK_between (g : Generator) :
    ∀ (q rel p : List String), dirChainOK g rel q = true →
      rel <+: p → p <+: rel ++ q → p ≠ rel → p ≠ rel ++ q →
      should_process_folder g p = true
  | [], _, _ => by intro hc; simp [dirChainOK] at hc
  | [x], rel, p => by
    intro hc h1 h2 h3 h4
    exfalso
    have hgt : rel.length < p.length := by
      rcases Nat.eq_or_lt_of_le h1.length_le with h | h
      · exact absurd (h1.eq_of_length h) (fun he => h3 he.symm)
      · exact h
    have hle : p.length ≤ rel.length + 1 := by
      have := h2.length_le
      simpa using this
    exact h4 (h2.eq_of_length (by simp; omega))
  | x :: y :: qrest, rel, p => by
    intro hc h1 h2 h3 h4
    simp only [dirChainOK, Bool.and_eq_true] at hc
    obtain ⟨hx, hrest⟩ := hc
    by_cases hp : p = rel ++ [x]
    · rw [hp]; exact hx
    · have hassoc : rel ++ x :: y :: qrest = (rel ++ [x]) ++ (y :: qrest) := by simp
      have hgt : rel.length < p.length := by
        rcases Nat.eq_or_lt_of_le h1.length_le with h | h
        · exact absurd (h1.eq_of_length h) (fun he => h3 he.symm)
        · exact h
      have h6 : rel ++ [x] <+: p := by
        refine List.prefix_of_prefix_length_le ?_ h2 (by simp; omega)
        rw [hassoc]
        exact List.prefix_append _ _
      exact dirChainOK_between g (y :: qrest) (rel ++ [x]) p hrest h6
        (by rw [hassoc] at h2; exact h2) hp (by rw [hassoc] at h4; exact h4)

/-- Lines 93-96: a built-in-skip segment prunes the folder whenever the
`folders` allow-list is empty or fails to cover the path (the two earlier
rules, when they fire, also prune). -/
theorem spf_skip_blocked {g : Generator} {p : List String}
    (hskip : hasSkipSeg p = true)
    (h : g.folders = [] ∨ inclCovers g p = false) :
    should_process_folder g p = false := by
  by_cases h1 : codemapperHit p = true
  · simp [should_process_folder, h1]
  · by_cases h2 : exclCovers g p = true
    · simp [should_process_folder, h1, h2]
    · rcases h with h | h
      · simp [should_process_folder, h1, h2, hskip, h]
      · simp [should_process_folder, h1, h2, hskip, h]

/-- Lines 93-96, descending side: when neither the codemapper rule nor
`except_folders` fires, a built-in-skip segment is overridden by a covering
entry of a non-empty `folders` list. -/
theorem spf_skip_included {g : Generator} {p : List String}
    (hcm : codemapperHit p = false) (hex : exclCovers g p = false)
    (hskip : hasSkipSeg p = true) (hne : g.folders ≠ [])
    (hcov : inclCovers g p = true) :
    should_process_folder g p = true := by
  have hne2 : g.folders.isEmpty = false := by
    cases hf : g.folders with
    | nil => exact absurd hf hne
    | cons a l => rfl
  simp [should_process_folder, hcm, hex, hskip, hne2, hcov]

/-- Line 89 fires (or line 85 before it): a path covered by `except_folders`
is always pruned. -/
theorem spf_excl {g : Generator} {p : List String}
    (h : exclCovers g p = true) : should_process_folder g p = false := by
  by_cases h1 : codemapperHit p = true
  · simp [should_process_folder, h1]
  · simp [should_process_folder, h1, h]

/-- Line 85: a `codemapper` path segment always prunes the folder. -/
theorem spf_codemapper {g : Generator} {p : List String}
    (h : p.contains "codemapper" = true) : should_process_folder g p = false := by
  have hh : codemapperHit p = true := by
    simp only [codemapperHit, Bool.or_eq_true]
    exact Or.inl h
  simp [should_process_folder, hh]

/-- Lines 52-55 with line 120: a file bearing the tool's own script name is
always refused by `should_process_file`, whatever the rest of the
configuration and whatever the stat outcome. -/
theorem spfile_script (c : Config) (rd : List String) (sz : Option Nat) :
    should_process_file (mkGenerator c) (rd ++ [scriptName c.is_frozen]) sz = false := by
  have hhit : exceptFileHit (mkGenerator c) (rd ++ [scriptName c.is_frozen]) = true := by
    simp [exceptFileHit, mkGenerator, List.getLast?_concat]
  by_cases h1 : fileCodemapperHit (rd ++ [scriptName c.is_frozen]) = true
  · simp [should_process_file, h1]
  · simp [should_process_file, h1, hhit]

/-- `statsTotal` distributes over accumulation. -/
theorem statsTotal_add (a b : Stats) :
    statsTotal (Stats.add a b) = statsTotal a + statsTotal b := by
  simp only [statsTotal, Stats.add]
  omega

/-- Every file reaching the file loop increments exactly one of the three
summary counters: text, binary, or skipped. -/
theorem processFile_total (g : Generator) (rd : List String) (f : FileEntry) :
    statsTotal (processFile g rd f).2 = 1 := by
  simp only [processFile]
  split
  · split <;> rfl
  · rfl

/-- The file loop contributes one summary count per file of the directory. -/
theorem processFiles_total (g : Generator) (rd : List String) :
    ∀ fs : List FileEntry, statsTotal (processFiles g rd fs).2 = fs.length
  | [] => rfl
  | f :: fs => by
    simp only [processFiles, statsTotal_add, processFile_total,
      processFiles_total g rd fs, List.length_cons]
    omega

/-- Counting with pointwise-equal predicates. -/
theorem countP_congrB {l : List α} {p q : α → Bool} (h : ∀ a ∈ l, p a = q a) :
    l.countP p = l.countP q := by
  induction l with
  | nil => rfl
  | cons a l ih =>
    simp only [List.countP_cons, h a (List.mem_cons_self ..),
      ih fun x hx => h x (List.mem_cons_of_mem _ hx)]

/-- Counting a constant predicate. -/
theorem countP_constB (l : List α) (b : Bool) :
    l.countP (fun _ => b) = if b then l.length else 0 := by
  induction l with
  | nil => simp
  | cons a l ih => cases b <;> simp [List.countP_cons, ih]

/-- The chain guarding a file directly inside the visited directory is just
that directory's own folder decision (line 200). -/
theorem dirChainOK_single (g : Generator) (rel : List String) (x : String) :
    dirChainOK g rel [x] = should_process_folder g rel := rfl

/-- Unfolding the chain across the first descent. -/
theorem dirChainOK_cons (g : Generator) (rel : List String) (name : String) :
    ∀ (q : List String), q ≠ [] →
      dirChainOK g rel (name :: q) =
        (should_process_folder g (rel ++ [name]) && dirChainOK g (rel ++ [name]) q)
  | [], h => absurd rfl h
  | _ :: _, _ => rfl

mutual
/-- The summary counters of a walk total exactly the number of files of the
tree whose guarding folder chain passes — files inside pruned directories
are counted by none of the three counters. -/
theorem walkDir_total (g : Generator) : (d : Dir) → ∀ rel : List String,
    statsTotal (walkDir g rel d).2 =
      (allFilesDir d).countP (fun x => dirChainOK g rel x.1)
  | .node entries files => by
    intro rel
    have hmap : (files.map fun f => (([f.name] : List String), f)).countP
        (fun x => dirChainOK g rel x.1) =
        if should_process_folder g rel then files.length else 0 := by
      rw [List.countP_map]
      have hc : ∀ f ∈ files,
          ((fun x : List String × FileEntry => dirChainOK g rel x.1) ∘
            fun f => ([f.name], f)) f = should_process_folder g rel := by
        intro f _
        simp [dirChainOK_single]
      rw [countP_congrB hc, countP_constB]
    by_cases hs : should_process_folder g rel = true
    · simp only [walkDir, if_pos hs]
      rw [statsTotal_add, processFiles_total, sortFiles_length,
        walkDirs_total g entries rel, allFilesDir, List.countP_append, hmap, if_pos hs]
    · rw [show should_process_folder g rel = false by simpa using hs] at hmap
      simp only [walkDir, hs, if_false]
      rw [statsTotal_add, walkDirs_total g entries rel, allFilesDir,
        List.countP_append, hmap]
      simp [statsTotal, Stats.zero]
/-- Counter totals over a forest of subdirectories. -/
theorem walkDirs_total (g : Generator) : (es : DirList) → ∀ rel : List String,
    statsTotal (walkDirs g rel es).2 =
      (allFilesEntries es).countP (fun x => dirChainOK g rel x.1)
  | .nil => by intro rel; simp [walkDirs, allFilesEntries, statsTotal, Stats.zero]
  | .cons name d rest => by
    intro rel
    have hmap : ((allFilesDir d).map fun x => (name :: x.1, x.2)).countP
        (fun x => dirChainOK g rel x.1) =
        if should_process_folder g (rel ++ [name]) then
          (allFilesDir d).countP (fun x => dirChainOK g (rel ++ [name]) x.1)
        else 0 := by
      rw [List.countP_map]
      have hc : ∀ x ∈ allFilesDir d,
          ((fun x : List String × FileEntry => dirChainOK g rel x.1) ∘
            fun x => (name :: x.1, x.2)) x =
          (should_process_folder g (rel ++ [name]) && dirChainOK g (rel ++ [name]) x.1) := by
        intro x hx
        obtain ⟨pre, hpre⟩ := allFilesDir_shape d x hx
        have hne : x.1 ≠ [] := by simp [hpre]
        simp [dirChainOK_cons g rel name x.1 hne]
      rw [countP_congrB hc]
      by_cases hs : should_process_folder g (rel ++ [name]) = true
      · rw [if_pos hs]
        exact countP_congrB fun x _ => by rw [hs, Bool.true_and]
      · rw [if_neg hs]
        rw [show should_process_folder g (rel ++ [name]) = false by simpa using hs]
        simp
    by_cases hs : should_process_folder g (rel ++ [name]) = true
    · simp only [walkDirs, if_pos hs]
      rw [statsTotal_add, walkDir_total g d (rel ++ [name]),
        walkDirs_total g rest rel, allFilesEntries, List.countP_append, hmap, if_pos hs]
    · simp only [walkDirs, hs, if_false]
      rw [statsTotal_add, walkDirs_total g rest rel, allFilesEntries,
        List.countP_append, hmap, if_neg hs]
      simp [statsTotal, Stats.zero]
end

/-- A list starts with itself followed by anything. -/
theorem startsWithL_append_self : ∀ (pat t : List Char), startsWithL pat (pat ++ t) = true
  | [], _ => rfl
  | c :: cs, t => by simp [startsWithL, startsWithL_append_self cs t]

/-- Appending a suffix makes `strEndsWith` hold. -/
theorem strEndsWith_append (s pat : String) : strEndsWith (s ++ pat) pat = true := by
  unfold strEndsWith
  rw [String.data_append, List.reverse_append]
  exact startsWithL_append_self _ _

/-- The content block written for a text file always ends with a newline. -/
theorem ensureNewline_endsWith (s : String) : strEndsWith (ensureNewline s) "\n" = true := by
  unfold ensureNewline
  by_cases h : strEndsWith s "\n" = true
  · rw [if_pos h]; exact h
  · rw [if_neg h]; exact strEndsWith_append s "\n"

/-- A character list without a dot has no last-dot index. -/
theorem lastDotAux_eq_none : ∀ {cs : List Char}, '.' ∉ cs → lastDotAux cs = none
  | [], _ => rfl
  | c :: cs, h => by
    have h1 : '.' ∉ cs := fun hc => h (List.mem_cons_of_mem _ hc)
    have h2 : ¬ (c = '.') := fun he => h (by simp [he])
    simp [lastDotAux, lastDotAux_eq_none h1, h2]

/-- `Path.suffix` of a dot-leading name with no further dot is empty:
the only dot sits at index 0, which the `0 < i` guard rejects. -/
theorem pySuffix_dotfile (cs : List Char) (h : '.' ∉ cs) :
    pySuffix (String.mk ('.' :: cs)) = "" := by
  unfold pySuffix
  have hl : lastDotAux (String.mk ('.' :: cs)).data = some 0 := by
    simp [lastDotAux, lastDotAux_eq_none h]
  rw [hl]
  simp

/-- `any` over a set-valued field depends only on membership. -/
theorem any_memEquiv {a b : List String} (h : memEquiv a b) (p : String → Bool) :
    a.any p = b.any p := by
  rw [Bool.eq_iff_iff]
  simp only [List.any_eq_true]
  constructor
  · rintro ⟨x, hx, hp⟩
    exact ⟨x, (h x).mp hx, hp⟩
  · rintro ⟨x, hx, hp⟩
    exact ⟨x, (h x).mpr hx, hp⟩

/-- `contains` over a set-valued field depends only on membership. -/
theorem contains_memEquiv {a b : List String} (h : memEquiv a b) (y : String) :
    a.contains y = b.contains y := by
  rw [Bool.eq_iff_iff]
  constructor
  · intro hy
    exact List.elem_iff.mpr ((h y).mp (List.elem_iff.mp hy))
  · intro hy
    exact List.elem_iff.mpr ((h y).mpr (List.elem_iff.mp hy))

/-- The folder decision depends on the rule sets only through list order
(for `folders`) and membership (for `except_folders`). -/
theorem spf_genEquiv {g g2 : Generator} (h : GenEquiv g g2) (p : List String) :
    should_process_folder g p = should_process_folder g2 p := by
  simp only [should_process_folder, exclCovers, inclCovers, inclSelects]
  rw [any_memEquiv h.excf, h.folders]

/-- The file decision depends on the rule sets only through list order
(for `files`), membership (for `except_files`), and the size bound. -/
theorem spfile_genEquiv {g g2 : Generator} (h : GenEquiv g g2) (p : List String)
    (sz : Option Nat) :
    should_process_file g p sz = should_process_file g2 p sz := by
  simp only [should_process_file, exceptFileHit, inclFileHit]
  rw [contains_memEquiv h.excfi, contains_memEquiv h.excfi, h.files, h.max]

/-- The text classification depends on `text_extensions` only through membership. -/
theorem is_text_genEquiv {g g2 : Generator} (h : GenEquiv g g2) (n : String) :
    is_text_file g n = is_text_file g2 n := by
  simp only [is_text_file]
  rw [contains_memEquiv h.exts]

/-- One file-loop step is identical under equivalent generator states. -/
theorem processFile_genEquiv {g g2 : Generator} (h : GenEquiv g g2)
    (rd : List String) (f : FileEntry) :
    processFile g rd f = processFile g2 rd f := by
  simp only [processFile]
  rw [spfile_genEquiv h, is_text_genEquiv h]

/-- The file loop is identical under equivalent generator states. -/
theorem processFiles_genEquiv {g g2 : Generator} (h : GenEquiv g g2)
    (rd : List String) : ∀ fs : List FileEntry,
    processFiles g rd fs = processFiles g2 rd fs
  | [] => rfl
  | f :: fs => by
    simp only [processFiles, processFile_genEquiv h, processFiles_genEquiv h rd fs]

mutual
/-- The whole walk — record stream and statistics — is identical under
equivalent generator states. -/
theorem walkDir_genEquiv {g g2 : Generator} (h : GenEquiv g g2) :
    (d : Dir) → ∀ rel : List String, walkDir g rel d = walkDir g2 rel d
  | .node entries files => by
    intro rel
    simp only [walkDir, spf_genEquiv h, processFiles_genEquiv h,
      walkDirs_genEquiv h entries rel]
/-- The walk over a forest is identical under equivalent generator states. -/
theorem walkDirs_genEquiv {g g2 : Generator} (h : GenEquiv g g2) :
    (es : DirList) → ∀ rel : List String, walkDirs g rel es = walkDirs g2 rel es
  | .nil => by intro rel; rfl
  | .cons name d rest => by
    intro rel
    simp only [walkDirs, spf_genEquiv h, walkDir_genEquiv h d (rel ++ [name]),
      walkDirs_genEquiv h rest rel]
end

/-- Master soundness of one full run: every emitted record corresponds to a
file of the tree whose guarding folder chain passed; the file decision
passed at the file's own path; and the record is exactly the text record
(with newline-ensured content) or the binary marker for that file. -/
theorem generate_map_mem {g : Generator} {t : Dir} {rec : Record}
    (h : rec ∈ (generate_map g t).1) :
    ∃ q f, (q, f) ∈ allFilesDir t ∧ dirChainOK g [] q = true ∧
      rec.relPath = q ∧ q.getLast? = some f.name ∧
      should_process_file g q f.statSize = true ∧
      ((rec = Record.text q (ensureNewline (read_file_safely f.content).1) ∧
          is_text_file g f.name = true) ∨
        (rec = Record.binary q ∧ is_text_file g f.name = false)) := by
  obtain ⟨q, f, hin, hchain, hproc⟩ := walkDir_mem g t [] rec h
  obtain ⟨pre, hpre⟩ := allFilesDir_shape t (q, f) hin
  have hpre2 : q = pre ++ [f.name] := hpre
  have hq : ([] ++ q.dropLast) ++ [f.name] = q := by
    rw [List.nil_append, hpre2, List.dropLast_concat]
  obtain ⟨hsp, hcase⟩ := processFile_mem hproc
  rw [hq] at hsp hcase
  have hrel : rec.relPath = q := by
    rcases hcase with ⟨heq, _⟩ | ⟨heq, _⟩ <;> rw [heq] <;> rfl
  refine ⟨q, f, hin, hchain, hrel, ?_, hsp, hcase⟩
  rw [hpre2]
  exact List.getLast?_concat pre

/-- C1 counterexample: the spec's worked example claims the final summary of
the default-configuration run on the example tree is Text:1 Binary:1
Skipped:1, but `node_modules` is pruned from the walk before its files ever
reach the file loop, so the skipped counter stays 0. -/
theorem c1_counterexample :
    (generate_map gDefault exampleTree).2.skipped_files ≠ 1 := by decide

/-- C1 (amended): with the default configuration on a root holding a.txt
("hello"), binary b.png, and node_modules/x.js, the run emits a.txt with
content "hello" plus a trailing newline, then b.png as a marker-only
record, emits nothing for node_modules/x.js, and the final summary reads
Text:1 Binary:1 Skipped:0 — the pruned file is not counted as skipped. -/
theorem c1_default_example :
    (generate_map gDefault exampleTree).1 =
      [Record.text ["a.txt"] "hello\n", Record.binary ["b.png"]] ∧
    (generate_map gDefault exampleTree).2 =
      { text_files := 1, binary_files := 1, skipped_files := 0, errors := 0,
        total_size := 8 } ∧
    summaryLine (generate_map gDefault exampleTree).2 = "Text:1 Binary:1 Skipped:0" ∧
    (∀ rec ∈ (generate_map gDefault exampleTree).1,
      Record.relPath rec ≠ ["node_modules", "x.js"]) := by
  refine ⟨by decide, by decide, by decide, by decide⟩

/-- C2 counterexample: the directory `node_modules` bears a built-in-skip
name and its relative path is covered by the non-empty includeFolders list,
yet — because it is also covered by excludeFolders, which is checked
earlier — the directory is not descended and its file yields no record,
contradicting the claim's "in which case the directory is descended and its
files can produce records". -/
theorem c2_counterexample :
    hasSkipSeg ["node_modules"] = true ∧
    gIncExc.folders ≠ [] ∧
    inclCovers gIncExc ["node_modules"] = true ∧
    should_process_folder gIncExc ["node_modules"] = false ∧
    (generate_map gIncExc cexTree).1 = [] := by
  refine ⟨by decide, by decide, by decide, by decide, by decide⟩

/-- C2 (amended): (i) a directory whose relative path has a built-in-skip
segment and is not covered by a non-empty includeFolders produces no record
from any file strictly below it; (ii) when includeFolders is non-empty and
covers the path, the built-in-skip rule does not prune it — the directory
is descended provided the earlier codemapper and excludeFolders rules do
not themselves prune it. -/
theorem c2_skip_folder :
    (∀ (g : Generator) (t : Dir) (p : List String) (rec : Record),
      hasSkipSeg p = true →
      ¬ (g.folders ≠ [] ∧ inclCovers g p = true) →
      rec ∈ (generate_map g t).1 →
      ¬ (p <+: Record.relPath rec ∧ p ≠ Record.relPath rec)) ∧
    (∀ (g : Generator) (p : List String),
      hasSkipSeg p = true → codemapperHit p = false → exclCovers g p = false →
      g.folders ≠ [] → inclCovers g p = true →
      should_process_folder g p = true) := by
  constructor
  · intro g t p rec hskip hncov hrec hand
    obtain ⟨hleads, hne⟩ := hand
    obtain ⟨q, f, hin, hchain, hqrel, hlast, hsp, hcase⟩ := generate_map_mem hrec
    rw [hqrel] at hleads hne
    have hpne : p ≠ [] := by
      intro he
      rw [he] at hskip
      exact absurd hskip (by decide)
    have hblocked : should_process_folder g p = false := by
      apply spf_skip_blocked hskip
      rcases Classical.em (g.folders = []) with h | h
      · exact Or.inl h
      · right
        cases hic : inclCovers g p with
        | false => rfl
        | true => exact absurd ⟨h, hic⟩ hncov
    have hpass : should_process_folder g p = true :=
      dirChainOK_between g q [] p hchain List.nil_prefix hleads hpne hne
    rw [hblocked] at hpass
    exact Bool.noConfusion hpass
  · intro g p hskip hcm hex hne hcov
    exact spf_skip_included hcm hex hskip hne hcov

/-- C2 witness: part (i) at the example tree — the record for a.txt is not
strictly below node_modules — and part (ii) at a generator whose
includeFolders covers node_modules with empty deny-lists. -/
theorem c2_witness :
    (¬ (["node_modules"] <+: Record.relPath (Record.text ["a.txt"] "hello\n") ∧
        ["node_modules"] ≠ Record.relPath (Record.text ["a.txt"] "hello\n"))) ∧
    should_process_folder gInc ["node_modules"] = true := by
  constructor
  · exact c2_skip_folder.1 gDefault exampleTree ["node_modules"]
      (Record.text ["a.txt"] "hello\n") (by decide) (by decide) (by decide)
  · exact c2_skip_folder.2 gInc ["node_modules"]
      (by decide) (by decide) (by decide) (by decide) (by decide)

/-- C3: a folder whose relative path is covered by an excludeFolders entry
is pruned even when it is also covered by an includeFolders entry — the
excludeFolders rule of line 89 is evaluated before every includeFolders
rule (and the codemapper rule before it also prunes). -/
theorem c3_exclude_wins (g : Generator) (p : List String)
    (hexc : exclCovers g p = true) (_hinc : inclCovers g p = true) :
    should_process_folder g p = false :=
  spf_excl hexc

/-- C3 witness: `node_modules/sub` is covered by both lists of `gIncExc`
and is pruned. -/
theorem c3_witness :
    exclCovers gIncExc ["node_modules", "sub"] = true ∧
    inclCovers gIncExc ["node_modules", "sub"] = true ∧
    should_process_folder gIncExc ["node_modules", "sub"] = false :=
  ⟨by decide, by decide,
    c3_exclude_wins gIncExc ["node_modules", "sub"] (by decide) (by decide)⟩

/-- C4: when `files` is non-empty and the filename or relative path is in
it, and no earlier rule (codemapper, except_files) excluded the file, the
file decision is true for every stat outcome — the size check of lines
127-132 is never reached — and a text-classified file is emitted with its
content. -/
theorem c4_include_files_bypasses_size (g : Generator) (rd : List String) (f : FileEntry)
    (hcm : fileCodemapperHit (rd ++ [f.name]) = false)
    (hex : exceptFileHit g (rd ++ [f.name]) = false)
    (hne : g.files ≠ [])
    (hin : inclFileHit g (rd ++ [f.name]) = true) :
    (∀ statSize : Option Nat, should_process_file g (rd ++ [f.name]) statSize = true) ∧
    (is_text_file g f.name = true →
      (processFile g rd f).1 =
        [Record.text (rd ++ [f.name]) (ensureNewline (read_file_safely f.content).1)] ∧
      (processFile g rd f).2.text_files = 1) := by
  have hall : ∀ statSize : Option Nat,
      should_process_file g (rd ++ [f.name]) statSize = true := by
    intro sz
    have hne2 : g.files.isEmpty = false := by
      cases hf : g.files with
      | nil => exact absurd hf hne
      | cons a l => rfl
    simp [should_process_file, hcm, hex, hne2, hin]
  refine ⟨hall, fun ht => ?_⟩
  constructor
  · simp [processFile, hall f.statSize, ht]
  · simp [processFile, hall f.statSize, ht]

/-- C4 witness: a 20 MiB file named in `files` passes the decision and is
emitted with content even though it exceeds the 10 MiB default bound. -/
theorem c4_witness :
    (mkGenerator { files := ["big.sql"] }).max_file_size < 20971520 ∧
    should_process_file (mkGenerator { files := ["big.sql"] })
      [("big.sql" : String)] (some 20971520) = true ∧
    (processFile (mkGenerator { files := ["big.sql"] }) []
        ⟨"big.sql", FileContent.utf8 "select 1;", some 20971520⟩).1 =
      [Record.text [("big.sql" : String)] "select 1;\n"] := by
  have h := c4_include_files_bypasses_size (mkGenerator { files := ["big.sql"] }) []
    ⟨"big.sql", FileContent.utf8 "select 1;", some 20971520⟩
    (by decide) (by decide) (by decide) (by decide)
  refine ⟨by decide, h.1 (some 20971520), ?_⟩
  have h2 := (h.2 (by decide)).1
  rw [h2]
  decide

/-- C5 counterexample: a source file whose decoded content already ends in
two newlines is emitted unchanged — the code of lines 223-225 appends a
newline only when the content lacks one — so the emitted content ends with
two trailing newlines, not exactly one. -/
theorem c5_counterexample :
    (generate_map gDefault nlTree).1 = [Record.text ["a.txt"] "x\n\n"] ∧
    endsWithOneNewline "x\n\n" = false := by
  refine ⟨by decide, by decide⟩

/-- C5 (amended): every emitted text record's content is the string the
safe reader returned for the corresponding file of the tree (the decoded
bytes: UTF-8, or Latin-1 when UTF-8 decoding fails), with a single newline
appended exactly when that string does not already end with one; the
emitted content therefore always ends with at least one trailing newline
(a source ending in several newlines keeps them all). -/
theorem c5_text_content {g : Generator} {t : Dir} {p : List String} {c : String}
    (h : Record.text p c ∈ (generate_map g t).1) :
    (∃ f : FileEntry, (p, f) ∈ allFilesDir t ∧
      c = ensureNewline (read_file_safely f.content).1) ∧
    strEndsWith c "\n" = true ∧
    (∀ s, (read_file_safely (FileContent.utf8 s)).1 = s) ∧
    (∀ s, (read_file_safely (FileContent.latin1 s)).1 = s) := by
  obtain ⟨q, f, hin, hchain, hqrel, hlast, hsp, hcase⟩ := generate_map_mem h
  rcases hcase with ⟨heq, _⟩ | ⟨heq, _⟩
  · injection heq with h1 h2
    refine ⟨⟨f, ?_, h2⟩, ?_, fun s => rfl, fun s => rfl⟩
    · rw [h1]
      exact hin
    · rw [h2]
      exact ensureNewline_endsWith _
  · exact absurd heq (by simp)

/-- C5 witness: the record emitted for a file containing "hi" carries
"hi" plus the appended newline, and ends with a newline. -/
theorem c5_witness :
    strEndsWith "hi\n" "\n" = true ∧
    (∃ f : FileEntry, ((["a.txt"] : List String), f) ∈ allFilesDir hiTree ∧
      "hi\n" = ensureNewline (read_file_safely f.content).1) := by
  have h := c5_text_content
    (show Record.text ["a.txt"] "hi\n" ∈ (generate_map gDefault hiTree).1 by decide)
  exact ⟨h.2.1, h.1⟩

/-- C6: the safe reader returns the UTF-8 decoding when it succeeds,
returns the Latin-1 decoding after a UnicodeDecodeError, and on any other
read error — on the first attempt or during the Latin-1 retry — returns the
literal marker string in place of content while incrementing the errors
counter by one; it is a total function of the read outcome, so no exception
escapes to abort the run, and a text file with a failed read is still
emitted as a record containing the marker. -/
theorem c6_read_file_safely :
    (∀ s, read_file_safely (FileContent.utf8 s) = (s, 0)) ∧
    (∀ s, read_file_safely (FileContent.latin1 s) = (s, 0)) ∧
    (∀ m, read_file_safely (FileContent.unreadable m) = ("[Error: " ++ m ++ "]", 1)) ∧
    (∀ m, read_file_safely (FileContent.latin1Unreadable m) = ("[Error: " ++ m ++ "]", 1)) ∧
    (∀ (g : Generator) (rd : List String) (name m : String) (sz : Option Nat),
      should_process_file g (rd ++ [name]) sz = true →
      is_text_file g name = true →
      processFile g rd ⟨name, FileContent.unreadable m, sz⟩ =
        ([Record.text (rd ++ [name]) (ensureNewline ("[Error: " ++ m ++ "]"))],
         { text_files := 1, binary_files := 0, skipped_files := 0, errors := 1,
           total_size := sz.getD 0 })) := by
  refine ⟨fun s => rfl, fun s => rfl, fun m => rfl, fun m => rfl, ?_⟩
  intro g rd name m sz hsp ht
  simp [processFile, hsp, ht, read_file_safely]

/-- C6 witness: a text file whose read raises is emitted with the literal
error marker and one error counted; the run's output is well defined. -/
theorem c6_witness :
    should_process_file gDefault [("boom.txt" : String)] (some 4) = true ∧
    is_text_file gDefault "boom.txt" = true ∧
    processFile gDefault [] ⟨"boom.txt", FileContent.unreadable "Permission denied", some 4⟩ =
      ([Record.text [("boom.txt" : String)] "[Error: Permission denied]\n"],
       { text_files := 1, binary_files := 0, skipped_files := 0, errors := 1,
         total_size := 4 }) := by
  refine ⟨by decide, by decide, ?_⟩
  have h := c6_read_file_safely.2.2.2.2 gDefault [] "boom.txt" "Permission denied"
    (some 4) (by decide) (by decide)
  rw [h]
  decide

/-- C7: the tool's own script name is in `except_files` the moment the
generator state is built; any file so named is refused by the file decision
before the `files` allow-list is even consulted, whatever the stat outcome;
any folder with a `codemapper` segment is pruned by the first folder rule,
whatever the `folders` allow-list; consequently no record of any run has
the script name as its filename or a `codemapper` segment in its directory
path. -/
theorem c7_self_exclusion (c : Config) :
    (mkGenerator c).except_files.contains (scriptName c.is_frozen) = true ∧
    (∀ (rd : List String) (sz : Option Nat),
      should_process_file (mkGenerator c) (rd ++ [scriptName c.is_frozen]) sz = false) ∧
    (∀ (g : Generator) (p : List String), p.contains "codemapper" = true →
      should_process_folder g p = false) ∧
    (∀ (t : Dir) (rec : Record), rec ∈ (generate_map (mkGenerator c) t).1 →
      (Record.relPath rec).getLast? ≠ some (scriptName c.is_frozen) ∧
      ¬ ("codemapper" ∈ (Record.relPath rec).dropLast)) := by
  refine ⟨?_, spfile_script c, fun g p h => spf_codemapper h, ?_⟩
  · exact List.elem_iff.mpr (by simp [mkGenerator])
  · intro t rec hrec
    obtain ⟨q, f, hin, hchain, hqrel, hlast, hsp, hcase⟩ := generate_map_mem hrec
    obtain ⟨pre, hpre⟩ := allFilesDir_shape t (q, f) hin
    have hpre2 : q = pre ++ [f.name] := hpre
    constructor
    · intro hbad
      rw [hqrel, hlast] at hbad
      have hf : f.name = scriptName c.is_frozen := Option.some.inj hbad
      rw [hpre2, hf] at hsp
      rw [spfile_script c pre f.statSize] at hsp
      exact Bool.noConfusion hsp
    · intro hmem
      rw [hqrel, hpre2, List.dropLast_concat] at hmem
      obtain ⟨s, t2, hst⟩ := List.append_of_mem hmem
      have hq2 : q = (s ++ ["codemapper"]) ++ (t2 ++ [f.name]) := by
        rw [hpre2, hst]
        simp
      have hpfx : (s ++ ["codemapper"]) <+: q := ⟨t2 ++ [f.name], hq2.symm⟩
      have hlen : (s ++ ["codemapper"]).length < q.length := by
        rw [hq2]
        simp only [List.length_append, List.length_cons, List.length_nil]
        omega
      have hneq : (s ++ ["codemapper"]) ≠ q := by
        intro he
        rw [he] at hlen
        exact Nat.lt_irrefl _ hlen
      have hne2 : (s ++ ["codemapper"]) ≠ ([] : List String) := by simp
      have hpass := dirChainOK_between (mkGenerator c) q [] (s ++ ["codemapper"])
        hchain List.nil_prefix hpfx hne2 hneq
      have hfalse : should_process_folder (mkGenerator c) (s ++ ["codemapper"]) = false := by
        apply spf_codemapper
        exact List.elem_iff.mpr (by simp)
      rw [hfalse] at hpass
      exact Bool.noConfusion hpass

/-- C7 witness: with the default (non-frozen) configuration, codemapper.py
is refused even though nothing else excludes it, a `codemapper` folder is
pruned, and a run over a tree containing codemapper.py emits no record for
it. -/
theorem c7_witness :
    should_process_file (mkGenerator {}) [("codemapper.py" : String)] (some 1) = false ∧
    should_process_folder gDefault [("codemapper" : String)] = false ∧
    Record.text [("codemapper.py" : String)] "x\n" ∉
      (generate_map (mkGenerator {})
        (Dir.node DirList.nil [⟨"codemapper.py", FileContent.utf8 "x", some 1⟩])).1 := by
  refine ⟨(c7_self_exclusion {}).2.1 [] (some 1), ?_, ?_⟩
  · exact (c7_self_exclusion {}).2.2.1 gDefault ["codemapper"] (by decide)
  · intro hmem
    have h := ((c7_self_exclusion {}).2.2.2
      (Dir.node DirList.nil [⟨"codemapper.py", FileContent.utf8 "x", some 1⟩])
      (Record.text ["codemapper.py"] "x\n") hmem).1
    exact h (by decide)

/-- C8: the emitted stream — record sequence and final statistics — is a
deterministic function of the rule set and the filesystem state: two
generator states built from the same ordered lists and the same sets (sets
compared by membership only, since Python's set iteration order may differ
between two processes) produce identical output on the same tree; the walk
itself is a pure function of these inputs, so repeated runs on an unchanged
tree agree byte for byte apart from the timestamp, which lives outside the
modelled record stream. -/
theorem c8_determinism {g g2 : Generator} (h : GenEquiv g g2) (t : Dir) :
    generate_map g t = generate_map g2 t :=
  walkDir_genEquiv h t []

/-- C8 witness: the same configuration with its three set-valued fields
enumerated in different orders yields the identical record stream and
statistics on a concrete tree. -/
theorem c8_witness : generate_map gA wTree = generate_map gB wTree := by
  have hequiv : GenEquiv gA gB := by
    refine ⟨rfl, rfl, rfl, ?_, ?_, ?_⟩
    · show memEquiv ["vendor", "dist"] ["dist", "vendor"]
      intro x
      simp only [List.mem_cons, List.not_mem_nil, or_false]
      tauto
    · show memEquiv ["codemapper.py", "secret.txt", "a.bin"]
        ["codemapper.py", "a.bin", "secret.txt"]
      intro x
      simp only [List.mem_cons, List.not_mem_nil, or_false]
      tauto
    · show memEquiv [".txt", ".py"] [".py", ".txt"]
      intro x
      simp only [List.mem_cons, List.not_mem_nil, or_false]
      tauto
  exact c8_determinism hequiv wTree

/-- C9: each file reaching the file loop increments exactly one of the
counters text_files, binary_files, skipped_files; over a whole run their
sum equals the number of files whose guarding folder chain passes — i.e.
the files visited in descended directories — and there are runs where this
differs from the number of files in the tree, because files inside pruned
directories increment none of the three. -/
theorem c9_counter_invariant :
    (∀ (g : Generator) (rd : List String) (f : FileEntry),
      statsTotal (processFile g rd f).2 = 1) ∧
    (∀ (g : Generator) (t : Dir),
      statsTotal (generate_map g t).2 =
        (allFilesDir t).countP (fun x => dirChainOK g [] x.1)) ∧
    (∃ (g : Generator) (t : Dir),
      statsTotal (generate_map g t).2 ≠ (allFilesDir t).length) :=
  ⟨processFile_total, fun g t => walkDir_total g t [],
    ⟨gDefault, exampleTree, by decide⟩⟩

/-- C10: a filename that starts with a dot and has no further dot (such as
.env or .gitignore) has empty `Path.suffix` — the sole dot is at index 0,
which the suffix rule rejects — so the default-configuration classifier
deems it non-text and the file is emitted as a bare binary marker without
content, even though ".env" and ".gitignore" themselves are members of the
default text-extension set. -/
theorem c10_dotfile_binary (cs : List Char) (h : '.' ∉ cs) :
    pySuffix (String.mk ('.' :: cs)) = "" ∧
    is_text_file gDefault (String.mk ('.' :: cs)) = false ∧
    ".env" ∈ DEFAULT_TEXT_EXTENSIONS ∧
    ".gitignore" ∈ DEFAULT_TEXT_EXTENSIONS ∧
    (∀ (rd : List String) (fc : FileContent) (sz : Option Nat),
      should_process_file gDefault (rd ++ [String.mk ('.' :: cs)]) sz = true →
      (processFile gDefault rd ⟨String.mk ('.' :: cs), fc, sz⟩).1 =
        [Record.binary (rd ++ [String.mk ('.' :: cs)])]) := by
  have hsuf := pySuffix_dotfile cs h
  have htext : is_text_file gDefault (String.mk ('.' :: cs)) = false := by
    unfold is_text_file
    rw [hsuf]
    decide
  refine ⟨hsuf, htext, by decide, by decide, ?_⟩
  intro rd fc sz hsp
  simp [processFile, hsp, htext]

/-- C10 witness: a file named .env with default configuration yields a
binary marker record and no content, despite ".env" being a default text
extension. -/
theorem c10_witness :
    pySuffix (String.mk ['.', 'e', 'n', 'v']) = "" ∧
    is_text_file gDefault (String.mk ['.', 'e', 'n', 'v']) = false ∧
    (processFile gDefault []
        ⟨String.mk ['.', 'e', 'n', 'v'], FileContent.utf8 "KEY=1", some 5⟩).1 =
      [Record.binary [String.mk ['.', 'e', 'n', 'v']]] := by
  have h := c10_dotfile_binary ['e', 'n', 'v'] (by decide)
  exact ⟨h.1, h.2.1, h.2.2.2.2 [] (FileContent.utf8 "KEY=1") (some 5) (by decide)⟩
